import Mathlib

/-!
Verification of the `codegen_sql` CREATE TABLE pipeline:
lexer (src/lexer.rs), parser (src/parser.rs) and interpreter
(src/interpreter.rs), embedded shallowly over byte lists.

The input text is modelled as `List Nat`, one entry per byte of the
Rust `input.as_bytes()` slice.  Cursor positions are byte indices.
The lexer loop is written in suffix-passing style: the loop state keeps
the absolute cursor `pos` together with the remaining suffix
`input.drop pos`; matchers receive that suffix, exactly the
`&input[position..]` slice the Rust matchers receive.

Rust code that can panic (out-of-bounds indexing, `Option::unwrap` on
`None`) is modelled by `Option`: a result of `none` means the call
panics, `some r` means it returns `r`.
-/

namespace CodegenSql

/-- ASCII lower-casing of one byte, the effect of the regex crate's
case-insensitive flag `(?i)` on the ASCII letters that make up every
keyword pattern in the lexer.  (Unicode case folding of non-ASCII byte
sequences is not modelled; every keyword pattern is pure ASCII.) -/
def byteFold (b : Nat) : Nat := if 65 ≤ b ∧ b ≤ 90 then b + 32 else b

/-- Bytes of an ASCII string literal, used to state concrete inputs. -/
def asciiBytes (s : String) : List Nat := s.data.map Char.toNat

/-- Decoding of an all-ASCII byte run back into a string
(`from_utf8` in the Rust source, applied only to ASCII runs). -/
def bytesToString (l : List Nat) : String := String.mk (l.map Char.ofNat)

/-- LexicalToken from src/lexer.rs. -/
inductive LexicalToken where
  | CreateTable
  | Int
  | Varchar
  | Json
  | Date
  | NotNull
  | LParen
  | RParen
  | Comma
  | Semicolon
  | Text (s : String)
deriving DecidableEq, Repr

/-- LexError from src/lexer.rs: a single variant carrying a message
string built as `format!("Invalid input {}", input[position])`. -/
inductive LexError where
  | InvalidError (msg : String)
deriving DecidableEq, Repr

/-- Checks whether the lower-cased pattern `pat` matches the start of
`input` case-insensitively: the anchored `^(?i)pat` test of the regex
matcher.  When `input` is shorter than `pat` the `take` truncates and
the comparison fails. -/
def foldTake (pat : List Nat) (input : List Nat) : Bool :=
  (input.take pat.length).map byteFold == pat

/-- RegexMatcher::exec from src/lexer.rs on the suffix starting at the
cursor.  The six anchored case-insensitive patterns are tried in the
order they are listed in Lexer::new: `CREATE TABLE`, `int(eger)?`,
`json`, `varchar`, `date`, `Not Null`.  The returned number is the
relative end of the match, `m.end() - 1` (the matcher reports an
inclusive end); `int(eger)?` matches greedily, so `eger` is included
whenever it follows `int`. -/
def regexExec (input : List Nat) : Option (LexicalToken × Nat) :=
  if foldTake (asciiBytes "create table") input then some (.CreateTable, 11)
  else if foldTake (asciiBytes "int") input then
    if foldTake (asciiBytes "eger") (input.drop 3) then some (.Int, 6) else some (.Int, 2)
  else if foldTake (asciiBytes "json") input then some (.Json, 3)
  else if foldTake (asciiBytes "varchar") input then some (.Varchar, 6)
  else if foldTake (asciiBytes "date") input then some (.Date, 3)
  else if foldTake (asciiBytes "not null") input then some (.NotNull, 7)
  else none

/-- SymbolMatcher::exec from src/lexer.rs: single-byte match against
`(` (40), `)` (41), `;` (59); the reported end equals the position, so
the relative end is 0.  (The comma is not in this matcher's table; the
lexer loop handles `,` before dispatching to matchers.) -/
def symbolExec (input : List Nat) : Option (LexicalToken × Nat) :=
  match input with
  | [] => none
  | b :: _ =>
    if b = 40 then some (.LParen, 0)
    else if b = 41 then some (.RParen, 0)
    else if b = 59 then some (.Semicolon, 0)
    else none

/-- ASCII alphanumeric test on a byte (`u8::is_ascii_alphanumeric`). -/
def isAlnumByte (b : Nat) : Bool :=
  (48 ≤ b && b ≤ 57) || (65 ≤ b && b ≤ 90) || (97 ≤ b && b ≤ 122)

/-- TextMatcher::text_is_valid from src/lexer.rs: a byte may extend an
identifier run when it is not a comma and is ASCII alphanumeric or an
underscore (95). -/
def textIsValid (b : Nat) : Bool := b ≠ 44 && (isAlnumByte b || b == 95)

/-- TextMatcher::exec from src/lexer.rs: consume the maximal valid run;
fail when it is empty.  The matcher stores `end = new_position`, the
EXCLUSIVE bound of the run — unlike the other two matchers, whose `end`
is inclusive — so the relative end returned here is the full run length
`n`, not `n - 1`. -/
def textExec (input : List Nat) : Option (LexicalToken × Nat) :=
  let n := (input.takeWhile textIsValid).length
  if n = 0 then none
  else some (.Text (bytesToString (input.take n)), n)

/-- Lexer::check from src/lexer.rs: try the three matchers in order and
take the first success. -/
def check (input : List Nat) : Option (LexicalToken × Nat) :=
  match regexExec input with
  | some r => some r
  | none =>
    match symbolExec input with
    | some r => some r
    | none => textExec input

/-- Length of the leading whitespace run (space 32, newline 10, tab 9):
the number of bytes Lexer::skip_space advances past. -/
def skipSpaceCount : List Nat → Nat
  | [] => 0
  | b :: r => if b = 32 ∨ b = 10 ∨ b = 9 then skipSpaceCount r + 1 else 0

/-- Main scanning loop of Lexer::run from src/lexer.rs.  `len` is the
total input length, `pos` the absolute cursor, the list argument the
remaining suffix `input.drop pos`.  On whitespace the cursor jumps past
the run (skip_space); on `,` a Comma token is pushed; otherwise `check`
dispatches the matchers and the cursor becomes `result.end + 1`.  When
the cursor passes the end, the stray debug line `let _a = input[pos - 2];`
executes: it panics (modelled by `none`) unless `2 ≤ pos` and
`pos - 2 < len`. -/
def lexLoop (len : Nat) : Nat → List LexicalToken → List Nat →
    Option (Except LexError (List LexicalToken))
  | pos, acc, [] => if 2 ≤ pos ∧ pos - 2 < len then some (.ok acc) else none
  | pos, acc, b :: r =>
    if b = 32 ∨ b = 10 ∨ b = 9 then
      lexLoop len (pos + 1 + skipSpaceCount r) acc (r.drop (skipSpaceCount r))
    else if b = 44 then
      lexLoop len (pos + 1) (acc ++ [.Comma]) r
    else
      match check (b :: r) with
      | none => some (.error (.InvalidError ("Invalid input " ++ toString b)))
      | some (tok, endOff) =>
        lexLoop len (pos + endOff + 1) (acc ++ [tok]) (r.drop endOff)
termination_by _ _ l => l.length
decreasing_by
  all_goals simp only [List.length_drop, List.length_cons]
  all_goals omega

/-- Lexer::run from src/lexer.rs: scan the whole input from cursor 0. -/
def lexRun (input : List Nat) : Option (Except LexError (List LexicalToken)) :=
  lexLoop input.length 0 [] input

/-- ColumnType from src/parser.rs. -/
inductive ColumnType where
  | Int
  | Json
  | Varchar
  | Date
deriving DecidableEq, Repr

/-- Ast from src/parser.rs: Expr2 is a column declaration, Expr1 the
right-leaning column list, Expr the whole statement. -/
inductive Ast where
  | Expr2 (name : String) (column_type : ColumnType) (null : Bool)
  | Expr1 (expr2 : Ast) (expr1 : Option Ast)
  | Expr (table_name : String) (expr1 : Ast)

/-- ParseError from src/parser.rs. -/
inductive ParseError where
  | UnexpectedToken (t : LexicalToken)
  | Eof
deriving DecidableEq, Repr

/-- Parser::parse_token from src/parser.rs: pop one token; `Eof` when
the stream is empty, `UnexpectedToken` when it differs from `target`.
Returns the remaining stream on success.  This helper never panics, so
no `Option` layer is needed. -/
def parse_token (ts : List LexicalToken) (target : LexicalToken) :
    Except ParseError (List LexicalToken) :=
  match ts with
  | [] => .error .Eof
  | t :: rest => if t = target then .ok rest else .error (.UnexpectedToken t)

/-- Parser::parse_text from src/parser.rs, applied to an already popped
`tokens.next()` value. -/
def parse_text : Option LexicalToken → Except ParseError String
  | some (.Text s) => .ok s
  | some t => .error (.UnexpectedToken t)
  | none => .error .Eof

/-- Parser::parse_column_type from src/parser.rs, applied to an already
popped `tokens.next()` value. -/
def parse_column_type : Option LexicalToken → Except ParseError ColumnType
  | some .Int => .ok .Int
  | some .Json => .ok .Json
  | some .Varchar => .ok .Varchar
  | some .Date => .ok .Date
  | some t => .error (.UnexpectedToken t)
  | none => .error .Eof

/-- Parser::parse_expr2 from src/parser.rs: column name, column type,
optional peeked NotNull (consumed when present, making the column not
null), then the mandatory comma.  The comma check reads
`let comma = tokens.next(); if comma != Some(Comma) { return
Err(UnexpectedToken(comma.unwrap())) }`: when the stream is exhausted
there, `comma.unwrap()` panics — modelled by `none`. -/
def parse_expr2_comma (name : String) (column_type : ColumnType) (null : Bool)
    (rest : List LexicalToken) :
    Option (Except ParseError (Ast × List LexicalToken)) :=
  match rest.head? with
  | none => none
  | some t =>
    if t = .Comma then some (.ok (.Expr2 name column_type null, rest.tail))
    else some (.error (.UnexpectedToken t))

/-- Parser::parse_expr2 from src/parser.rs: column name, column type,
optional peeked NotNull (consumed when present, making the column not
null), then the mandatory comma via `parse_expr2_comma` above. -/
def parse_expr2 (ts : List LexicalToken) :
    Option (Except ParseError (Ast × List LexicalToken)) :=
  match parse_text ts.head? with
  | .error e => some (.error e)
  | .ok name =>
    match parse_column_type ts.tail.head? with
    | .error e => some (.error e)
    | .ok column_type =>
      match ts.tail.tail.head? with
      | some .NotNull => parse_expr2_comma name column_type false ts.tail.tail.tail
      | _ => parse_expr2_comma name column_type true ts.tail.tail

/-- Parser::parse_expr1 from src/parser.rs: parse one column, then,
while the peeked token is a Text, recurse for the remaining columns.
The recursion terminates because a successful parse_expr2 always
consumes at least one token (proved inline in the decreasing_by
block). -/
def parse_expr1 (ts : List LexicalToken) :
    Option (Except ParseError (Ast × List LexicalToken)) :=
  match h : parse_expr2 ts with
  | none => none
  | some (.error e) => some (.error e)
  | some (.ok (expr2, ts')) =>
    match ts'.head? with
    | some (.Text _) =>
      match parse_expr1 ts' with
      | none => none
      | some (.error e) => some (.error e)
      | some (.ok (expr1, ts'')) => some (.ok (.Expr1 expr2 (some expr1), ts''))
    | _ => some (.ok (.Expr1 expr2 none, ts'))
termination_by ts.length
decreasing_by
  have hcr : ∀ (nm : String) (ct : ColumnType) (nl : Bool)
      (rest ts₀ : List LexicalToken) (a : Ast),
      parse_expr2_comma nm ct nl rest = some (.ok (a, ts₀)) →
      rest ≠ [] ∧ ts₀ = rest.tail := by
    intro nm ct nl rest ts₀ a hc
    cases rest with
    | nil => simp [parse_expr2_comma] at hc
    | cons t r =>
      by_cases ht : t = LexicalToken.Comma
      · subst ht
        simp [parse_expr2_comma] at hc
        simp [hc.2]
      · simp [parse_expr2_comma, ht] at hc
  cases ts with
  | nil => simp [parse_expr2, parse_text] at h
  | cons t0 rest =>
    cases t0
    case Text s =>
      simp only [parse_expr2, parse_text, List.head?_cons, List.tail_cons] at h
      cases hct : parse_column_type rest.head? with
      | error e => rw [hct] at h; exact absurd h (by simp)
      | ok ct =>
        rw [hct] at h
        simp only at h
        cases hnn : rest.tail.head? with
        | none =>
          rw [hnn] at h
          obtain ⟨hne, -⟩ := hcr _ _ _ _ _ _ h
          cases hc : rest.tail with
          | nil => exact absurd hc hne
          | cons a b => rw [hc] at hnn; simp at hnn
        | some t2 =>
          rw [hnn] at h
          cases t2 <;>
            (obtain ⟨-, hts⟩ := hcr _ _ _ _ _ _ h
             subst hts
             simp only [List.length_tail, List.length_cons]
             omega)
    all_goals simp [parse_expr2, parse_text] at h

/-- Parser::parse_expr from src/parser.rs: CREATE TABLE, table name,
left paren, the column list, right paren, semicolon. -/
def parse_expr (ts : List LexicalToken) :
    Option (Except ParseError (Ast × List LexicalToken)) :=
  match parse_token ts .CreateTable with
  | .error e => some (.error e)
  | .ok ts1 =>
    match parse_text ts1.head? with
    | .error e => some (.error e)
    | .ok table_name =>
      let ts2 := ts1.tail
      match parse_token ts2 .LParen with
      | .error e => some (.error e)
      | .ok ts3 =>
        match parse_expr1 ts3 with
        | none => none
        | some (.error e) => some (.error e)
        | some (.ok (expr1, ts4)) =>
          match parse_token ts4 .RParen with
          | .error e => some (.error e)
          | .ok ts5 =>
            match parse_token ts5 .Semicolon with
            | .error e => some (.error e)
            | .ok ts6 => some (.ok (.Expr table_name expr1, ts6))

/-- Parser::run from src/parser.rs: parse_expr on the whole stream
(tokens remaining after the statement are not inspected). -/
def parserRun (ts : List LexicalToken) : Option (Except ParseError Ast) :=
  match parse_expr ts with
  | none => none
  | some (.error e) => some (.error e)
  | some (.ok (ast, _)) => some (.ok ast)

/-- Field from src/interpreter.rs. -/
structure Field where
  name : String
  field_type : String
deriving DecidableEq, Repr

/-- TableStruct from src/interpreter.rs.  TableStructBuilder holds the
same two components and its `build` just copies them, so the builder
state is modelled by `TableStruct` itself, starting from
`{ name := "", fields := [] }`. -/
structure TableStruct where
  name : String
  fields : List Field
deriving DecidableEq, Repr

/-- Textual rendering `format!("{:?}", column_type)` of a ColumnType,
the derived Debug output of the Rust enum. -/
def columnTypeName : ColumnType → String
  | .Int => "Int"
  | .Json => "Json"
  | .Varchar => "Varchar"
  | .Date => "Date"

/-- Interpreter::eval from src/interpreter.rs: Expr sets the table
name then walks the column list; Expr1 evaluates its head column and
then its optional tail; Expr2 appends one Field built from the column
name and the Debug rendering of its type (the null flag is ignored). -/
def eval : Ast → TableStruct → TableStruct
  | .Expr table_name expr1, b => eval expr1 { b with name := table_name }
  | .Expr1 expr2 (some expr1), b => eval expr1 (eval expr2 b)
  | .Expr1 expr2 none, b => eval expr2 b
  | .Expr2 name column_type _, b =>
    { b with fields := b.fields ++ [⟨name, columnTypeName column_type⟩] }

/-- Interpreter::run from src/interpreter.rs: evaluate the tree over a
fresh builder and build the table. -/
def interpRun (ast : Ast) : TableStruct := eval ast ⟨"", []⟩

/-- Combined failure type of the three-stage pipeline. -/
inductive PipelineError where
  | lex (e : LexError)
  | parse (e : ParseError)
deriving DecidableEq, Repr

/-- The full pipeline as wired in src/main.rs: tokenize, parse, build.
`none` means some stage panicked. -/
def pipeline (input : List Nat) : Option (Except PipelineError TableStruct) :=
  match lexRun input with
  | none => none
  | some (.error e) => some (.error (.lex e))
  | some (.ok tokens) =>
    match parserRun tokens with
    | none => none
    | some (.error e) => some (.error (.parse e))
    | some (.ok ast) => some (.ok (interpRun ast))

/-! Descriptions of column declarations, used to state the universally
quantified claims about well-formed statements. -/

/-- Abstract description of one column declaration: name, type, and
whether the column is nullable (`null = true` means no NOT NULL). -/
structure ColumnSpec where
  name : String
  ctype : ColumnType
  null : Bool

/-- Lexical token of a column type keyword. -/
def ctLexTok : ColumnType → LexicalToken
  | .Int => .Int
  | .Json => .Json
  | .Varchar => .Varchar
  | .Date => .Date

/-- Token sequence of one column declaration in the grammar
`ColumnDecl = Identifier ColumnType ["NOT NULL"] ","`. -/
def columnTokens (c : ColumnSpec) : List LexicalToken :=
  .Text c.name :: ctLexTok c.ctype ::
    (if c.null then [.Comma] else [.NotNull, .Comma])

/-- Token sequence of a column declaration whose trailing comma has
been omitted. -/
def columnTokensNoComma (c : ColumnSpec) : List LexicalToken :=
  .Text c.name :: ctLexTok c.ctype :: (if c.null then [] else [.NotNull])

/-- The Expr2 node the parser builds for one column declaration. -/
def expr2Of (c : ColumnSpec) : Ast := .Expr2 c.name c.ctype c.null

/-- The right-leaning Expr1 chain the parser builds for a nonempty
column list. -/
def astOf (c : ColumnSpec) : List ColumnSpec → Ast
  | [] => .Expr1 (expr2Of c) none
  | c' :: cs => .Expr1 (expr2Of c) (some (astOf c' cs))

/-- The Field the interpreter builds for one column declaration. -/
def fieldOf (c : ColumnSpec) : Field := ⟨c.name, columnTypeName c.ctype⟩

/-! Source-text rendering of well-formed statements, for the claims
about the full pipeline. -/

/-- Column description at the byte level: the column name as the bytes
appearing in the source text. -/
structure SourceColumn where
  name : List Nat
  ctype : ColumnType
  null : Bool

/-- Canonical source spelling of a column type keyword. -/
def ctKeyword : ColumnType → List Nat
  | .Int => asciiBytes "INT"
  | .Json => asciiBytes "JSON"
  | .Varchar => asciiBytes "VARCHAR"
  | .Date => asciiBytes "DATE"

/-- Source text of one column declaration: `name TYPE[ NOT NULL], `. -/
def renderColumn (c : SourceColumn) : List Nat :=
  c.name ++ [32] ++ ctKeyword c.ctype ++
    (if c.null then [] else asciiBytes " NOT NULL") ++ [44, 32]

/-- Source text of a whole statement:
`CREATE TABLE name (col1, col2, ... );` with every column rendered by
`renderColumn` (the grammar requires the comma after the last column
too). -/
def renderStatement (table : List Nat) (cols : List SourceColumn) : List Nat :=
  asciiBytes "CREATE TABLE " ++ table ++ [32, 40] ++
    cols.flatMap renderColumn ++ [41, 59]

/-- The token-level description of a source column. -/
def tokenSpec (c : SourceColumn) : ColumnSpec :=
  ⟨bytesToString c.name, c.ctype, c.null⟩

/-- The six anchored keyword patterns of the lexer's RegexMatcher, in
priority order, lower-cased. -/
def kwPatterns : List (List Nat) :=
  [asciiBytes "create table", asciiBytes "int", asciiBytes "json",
   asciiBytes "varchar", asciiBytes "date", asciiBytes "not null"]

/-- A byte string usable as an identifier in a well-formed statement:
nonempty, made of identifier bytes, and such that no keyword pattern
case-insensitively matches a prefix of the name followed by a space
(so the keyword matchers stay quiet where the identifier stands). -/
def validName (name : List Nat) : Prop :=
  name ≠ [] ∧ (∀ b ∈ name, textIsValid b = true) ∧
    (∀ pat ∈ kwPatterns, foldTake pat (name ++ [32]) = false)

instance (name : List Nat) : Decidable (validName name) := by
  unfold validName
  infer_instance

/-! Step lemmas about the lexer loop. -/

/-- One loop iteration over a whitespace byte. -/
theorem lexLoop_ws_step (len pos : Nat) (acc : List LexicalToken) (b : Nat)
    (r : List Nat) (hws : b = 32 ∨ b = 10 ∨ b = 9) :
    lexLoop len pos acc (b :: r) =
      lexLoop len (pos + 1 + skipSpaceCount r) acc (r.drop (skipSpaceCount r)) := by
  rw [lexLoop]
  simp [hws]

/-- One loop iteration over a single space followed by a
non-whitespace byte. -/
theorem lexLoop_space_one (len pos : Nat) (acc : List LexicalToken)
    (r : List Nat) (hr : ∀ b ∈ r.head?, ¬(b = 32 ∨ b = 10 ∨ b = 9)) :
    lexLoop len pos acc (32 :: r) = lexLoop len (pos + 1) acc r := by
  have hz : skipSpaceCount r = 0 := by
    cases r with
    | nil => rfl
    | cons b rr =>
      have := hr b (by simp)
      rw [skipSpaceCount]
      simp [this]
  rw [lexLoop_ws_step len pos acc 32 r (by omega), hz]
  simp

/-- One loop iteration over a comma byte. -/
theorem lexLoop_comma_step (len pos : Nat) (acc : List LexicalToken)
    (r : List Nat) :
    lexLoop len pos acc (44 :: r) = lexLoop len (pos + 1) (acc ++ [.Comma]) r := by
  rw [lexLoop]
  simp

/-- One loop iteration dispatching the matchers. -/
theorem lexLoop_check_step (len pos : Nat) (acc : List LexicalToken) (b : Nat)
    (r : List Nat) (tok : LexicalToken) (endOff : Nat)
    (hws : ¬(b = 32 ∨ b = 10 ∨ b = 9)) (hc : b ≠ 44)
    (hchk : check (b :: r) = some (tok, endOff)) :
    lexLoop len pos acc (b :: r) =
      lexLoop len (pos + endOff + 1) (acc ++ [tok]) (r.drop endOff) := by
  rw [lexLoop]
  simp [hws, hc, hchk]

/-- The loop's exit: the stray `input[pos - 2]` read panics unless the
index is in bounds. -/
theorem lexLoop_nil (len pos : Nat) (acc : List LexicalToken) :
    lexLoop len pos acc [] =
      if 2 ≤ pos ∧ pos - 2 < len then some (.ok acc) else none := by
  rw [lexLoop]

/-- A matcher-failure iteration: the loop stops with InvalidError
naming the byte. -/
theorem lexLoop_invalid_step (len pos : Nat) (acc : List LexicalToken) (b : Nat)
    (r : List Nat) (hws : ¬(b = 32 ∨ b = 10 ∨ b = 9)) (hc : b ≠ 44)
    (hchk : check (b :: r) = none) :
    lexLoop len pos acc (b :: r) =
      some (.error (.InvalidError ("Invalid input " ++ toString b))) := by
  rw [lexLoop]
  simp [hws, hc, hchk]

/-! Claim theorems for the concrete scenarios. -/

/-- C2: on the input `CREATE TABLE users (id INT NOT NULL, name
VARCHAR,);` the pipeline succeeds and returns the table named "users"
with exactly the two fields ("id", "Int") and ("name", "Varchar"), in
that order. -/
theorem scenario_users_pipeline :
    pipeline (asciiBytes "CREATE TABLE users (id INT NOT NULL, name VARCHAR,);") =
      some (.ok ⟨"users", [⟨"id", "Int"⟩, ⟨"name", "Varchar"⟩]⟩) := by
  simp +decide [pipeline, lexRun, lexLoop, check, regexExec, symbolExec, textExec,
    foldTake, byteFold, asciiBytes, bytesToString, skipSpaceCount, parserRun,
    parse_expr, parse_expr1, parse_expr2, parse_expr2_comma, parse_token,
    parse_text, parse_column_type, interpRun, eval, columnTypeName]

/-- C3 (divergence witness): on the input `name,` the lexer does NOT
produce Identifier("name") followed by Comma.  TextMatcher stores an
exclusive end while Lexer::run advances to `end + 1`, so the comma
byte right after the identifier run is skipped and the output is just
[Text "name"]. -/
theorem lexer_name_comma_skipped :
    lexRun (asciiBytes "name,") = some (.ok [.Text "name"]) := by
  simp +decide [lexRun, lexLoop, check, regexExec, symbolExec, textExec, foldTake,
    byteFold, asciiBytes, bytesToString, skipSpaceCount]

/-- C4 (divergence witness): tokenizing the empty string and the
one-byte string `(` panics (the trailing debug read
`let _a = input[pos - 2];` indexes out of bounds), instead of
returning a result or one of the three documented errors. -/
theorem lexer_short_input_panics :
    lexRun (asciiBytes "") = none ∧ lexRun (asciiBytes "(") = none := by
  constructor <;>
    simp +decide [lexRun, lexLoop, check, regexExec, symbolExec, textExec, foldTake,
    byteFold, asciiBytes, bytesToString, skipSpaceCount]

/-- C5 (divergence witness): when the token stream runs out exactly at
the mandatory comma of a column declaration, the parser panics
(`comma.unwrap()` on `None`) instead of failing with Eof. -/
theorem parser_eof_at_comma_panics :
    parserRun [.CreateTable, .Text "t", .LParen, .Text "x", .Int] = none := by
  simp +decide [parserRun, parse_expr, parse_expr1, parse_expr2, parse_expr2_comma,
    parse_token, parse_text, parse_column_type]

/-- C6 (counterexample): the lexical error does not carry the failing
position.  The inputs `@` and `x @` fail at byte positions 0 and 2
respectively, yet produce the very same error value, which names only
the offending byte (64); no component of the error determines the
position. -/
theorem lex_error_positions_indistinguishable :
    lexRun (asciiBytes "@") =
        some (.error (.InvalidError "Invalid input 64")) ∧
      lexRun (asciiBytes "x @") =
        some (.error (.InvalidError "Invalid input 64")) := by
  constructor <;>
    simp +decide [lexRun, lexLoop, check, regexExec, symbolExec, textExec, foldTake,
    byteFold, asciiBytes, bytesToString, skipSpaceCount]

/-! Inversion and composition lemmas about the parser. -/

/-- Inversion of the comma check at the end of parse_expr2. -/
theorem parse_expr2_comma_ok {nm : String} {ct : ColumnType} {nl : Bool}
    {rest ts' : List LexicalToken} {a : Ast}
    (h : parse_expr2_comma nm ct nl rest = some (.ok (a, ts'))) :
    a = .Expr2 nm ct nl ∧ rest = .Comma :: ts' := by
  cases rest with
  | nil => simp [parse_expr2_comma] at h
  | cons t r =>
    by_cases ht : t = LexicalToken.Comma
    · subst ht
      simp [parse_expr2_comma] at h
      exact ⟨h.1.symm, by rw [h.2]⟩
    · simp [parse_expr2_comma, ht] at h

/-- parse_expr2 on the token rendering of one column declaration
followed by anything: it succeeds, builds the column's Expr2 node and
leaves the continuation untouched. -/
theorem parse_expr2_columnTokens (c : ColumnSpec) (R : List LexicalToken) :
    parse_expr2 (columnTokens c ++ R) = some (.ok (expr2Of c, R)) := by
  obtain ⟨n, ct, null⟩ := c
  cases ct <;> cases null <;>
    simp [columnTokens, ctLexTok, expr2Of, parse_expr2, parse_text,
      parse_column_type, parse_expr2_comma]

/-- parse_expr1 on a nonempty run of rendered columns followed by a
continuation that does not start with an identifier: it builds the
right-leaning Expr1 chain and stops at the continuation. -/
theorem parse_expr1_columnTokens (c : ColumnSpec) (cs : List ColumnSpec)
    (rest : List LexicalToken) (hrest : ∀ s, rest.head? ≠ some (.Text s)) :
    parse_expr1 (columnTokens c ++ cs.flatMap columnTokens ++ rest) =
      some (.ok (astOf c cs, rest)) := by
  induction cs generalizing c with
  | nil =>
    rw [show columnTokens c ++ ([] : List ColumnSpec).flatMap columnTokens ++ rest =
      columnTokens c ++ rest by simp]
    rw [parse_expr1]
    rw [parse_expr2_columnTokens]
    cases hr : rest.head? with
    | none => simp [astOf, hr]
    | some t =>
      cases t <;> simp [astOf, hr] <;> exact absurd hr (hrest _)
  | cons c' cs' ih =>
    rw [show columnTokens c ++ (c' :: cs').flatMap columnTokens ++ rest =
      columnTokens c ++ (columnTokens c' ++ cs'.flatMap columnTokens ++ rest) by
        simp [List.flatMap_cons]]
    rw [parse_expr1]
    rw [parse_expr2_columnTokens]
    simp only
    rw [show (columnTokens c' ++ cs'.flatMap columnTokens ++ rest).head? =
      some (.Text c'.name) by simp [columnTokens]]
    rw [ih c']
    simp [astOf]

/-- parse_expr on the token rendering of a whole well-formed statement
with at least one column. -/
theorem parse_expr_statement (table : String) (c : ColumnSpec)
    (cs : List ColumnSpec) :
    parse_expr (.CreateTable :: .Text table :: .LParen ::
        (columnTokens c ++ cs.flatMap columnTokens ++ [.RParen, .Semicolon])) =
      some (.ok (.Expr table (astOf c cs), [])) := by
  simp only [parse_expr, parse_token, parse_text, List.head?_cons, List.tail_cons,
    if_pos rfl, reduceIte]
  rw [parse_expr1_columnTokens c cs [.RParen, .Semicolon] (by simp)]
  simp [parse_token]

/-- The interpreter walk over a column chain appends the corresponding
fields, in order, to the accumulated builder state. -/
theorem eval_astOf (c : ColumnSpec) (cs : List ColumnSpec) (b : TableStruct) :
    eval (astOf c cs) b = ⟨b.name, b.fields ++ (c :: cs).map fieldOf⟩ := by
  induction cs generalizing c b with
  | nil => simp [astOf, eval, expr2Of, fieldOf]
  | cons c' cs' ih => simp [astOf, eval, expr2Of, ih, fieldOf]

/-- Interpreter::run on a statement AST: the table name and one field
per column, in declaration order. -/
theorem interpRun_statement (table : String) (c : ColumnSpec)
    (cs : List ColumnSpec) :
    interpRun (.Expr table (astOf c cs)) = ⟨table, (c :: cs).map fieldOf⟩ := by
  simp [interpRun, eval, eval_astOf]

/-- parse_expr1 on a column run whose final column lacks its trailing
comma before the closing paren: the parse stops with
UnexpectedToken(RParen). -/
theorem parse_expr1_no_final_comma (cs : List ColumnSpec) (c : ColumnSpec) :
    parse_expr1 (cs.flatMap columnTokens ++ columnTokensNoComma c ++
        [.RParen, .Semicolon]) =
      some (.error (.UnexpectedToken .RParen)) := by
  induction cs with
  | nil =>
    rw [show ([] : List ColumnSpec).flatMap columnTokens ++
        columnTokensNoComma c ++ [.RParen, .Semicolon] =
      columnTokensNoComma c ++ [.RParen, .Semicolon] by simp]
    rw [parse_expr1]
    rw [show parse_expr2 (columnTokensNoComma c ++ [.RParen, .Semicolon]) =
        some (.error (.UnexpectedToken .RParen)) by
      obtain ⟨n, ct, null⟩ := c
      cases ct <;> cases null <;>
        simp [columnTokensNoComma, ctLexTok, parse_expr2, parse_text,
          parse_column_type, parse_expr2_comma]]
  | cons c' cs' ih =>
    rw [show (c' :: cs').flatMap columnTokens ++ columnTokensNoComma c ++
        [.RParen, .Semicolon] =
      columnTokens c' ++ (cs'.flatMap columnTokens ++ columnTokensNoComma c ++
        [.RParen, .Semicolon]) by simp [List.flatMap_cons]]
    rw [parse_expr1]
    rw [parse_expr2_columnTokens]
    simp only
    obtain ⟨s, hs⟩ : ∃ s, (cs'.flatMap columnTokens ++ columnTokensNoComma c ++
        ([.RParen, .Semicolon] : List LexicalToken)).head? = some (.Text s) := by
      cases cs' with
      | nil => exact ⟨c.name, by simp [columnTokensNoComma]⟩
      | cons c'' cs'' => exact ⟨c''.name, by simp [List.flatMap_cons, columnTokens]⟩
    rw [hs, ih]

/-- C7: for every statement whose last column declaration lacks the
trailing comma before `)`, parsing fails, with UnexpectedToken or Eof
(concretely, UnexpectedToken(RParen): the parser demands the comma and
finds the closing paren instead). -/
theorem missing_final_comma_fails (table : String) (cs : List ColumnSpec)
    (c : ColumnSpec) :
    ∃ e, parserRun (.CreateTable :: .Text table :: .LParen ::
          (cs.flatMap columnTokens ++ columnTokensNoComma c ++
            [.RParen, .Semicolon])) =
        some (.error e) ∧ ((∃ t, e = .UnexpectedToken t) ∨ e = .Eof) := by
  refine ⟨.UnexpectedToken .RParen, ?_, .inl ⟨_, rfl⟩⟩
  simp only [parserRun, parse_expr, parse_token, parse_text, List.head?_cons,
    List.tail_cons, if_pos rfl, reduceIte]
  rw [parse_expr1_no_final_comma]

/-- C8: in every successfully parsed column declaration, the nullable
flag is true exactly when no NOT NULL token follows the type token;
when NOT NULL appears right after the type token and before the
separating comma, the flag is false and that token is consumed (it is
not part of the leftover stream). -/
theorem nullability_rule (ts ts' : List LexicalToken) (name : String)
    (ct : ColumnType) (null : Bool)
    (h : parse_expr2 ts = some (.ok (.Expr2 name ct null, ts'))) :
    (null = true ∧ ts = .Text name :: ctLexTok ct :: .Comma :: ts') ∨
    (null = false ∧ ts = .Text name :: ctLexTok ct :: .NotNull :: .Comma :: ts') := by
  cases ts with
  | nil => simp [parse_expr2, parse_text] at h
  | cons t0 rest =>
    cases t0
    case Text s =>
      simp only [parse_expr2, parse_text, List.head?_cons, List.tail_cons] at h
      cases rest with
      | nil => simp [parse_column_type] at h
      | cons t1 rest1 =>
        simp only [List.head?_cons, List.tail_cons] at h
        cases hct : parse_column_type (some t1) with
        | error e => rw [hct] at h; simp at h
        | ok ct1 =>
          rw [hct] at h
          simp only at h
          have ht1 : t1 = ctLexTok ct1 := by
            cases t1 <;> simp [parse_column_type] at hct <;>
              simp [← hct, ctLexTok]
          cases rest1 with
          | nil =>
            simp only [List.head?_nil] at h
            simp [parse_expr2_comma] at h
          | cons t2 rest2 =>
            simp only [List.head?_cons, List.tail_cons] at h
            cases t2
            case NotNull =>
              obtain ⟨ha, hr⟩ := parse_expr2_comma_ok h
              obtain ⟨rfl, rfl, rfl⟩ : s = name ∧ ct1 = ct ∧ false = null := by
                cases ha; exact ⟨rfl, rfl, rfl⟩
              exact .inr ⟨rfl, by rw [ht1, hr]⟩
            all_goals (
              obtain ⟨ha, hr⟩ := parse_expr2_comma_ok h
              obtain ⟨rfl, rfl, rfl⟩ : s = name ∧ ct1 = ct ∧ true = null := by
                cases ha; exact ⟨rfl, rfl, rfl⟩
              exact .inl ⟨rfl, by rw [ht1, hr]⟩)
    all_goals simp [parse_expr2, parse_text] at h

/-! Lemmas about the case-insensitive keyword matching. -/

/-- foldTake only looks at the case-folded input. -/
theorem foldTake_congr {bs w : List Nat} (hw : bs.map byteFold = w)
    (pat : List Nat) : foldTake pat bs = (w.take pat.length == pat) := by
  unfold foldTake
  rw [List.map_take, hw]

/-- A byte whose fold is a lower-case letter is not whitespace and not
a comma. -/
theorem head_not_special {b f : Nat} (hb : byteFold b = f)
    (hf : 97 ≤ f ∧ f ≤ 122) : ¬(b = 32 ∨ b = 10 ∨ b = 9) ∧ b ≠ 44 := by
  constructor
  · rintro (rfl | rfl | rfl) <;> simp [byteFold] at hb <;> omega
  · rintro rfl
    simp [byteFold] at hb
    omega

/-- Lexer::run on an input that one matcher consumes whole (with the
matcher's inclusive end at the last byte): a single token comes out and
the final stray read stays in bounds. -/
theorem lexRun_single (b : Nat) (r : List Nat) (tok : LexicalToken)
    (hws : ¬(b = 32 ∨ b = 10 ∨ b = 9)) (hc : b ≠ 44) (h2 : 1 ≤ r.length)
    (hchk : check (b :: r) = some (tok, r.length)) :
    lexRun (b :: r) = some (.ok [tok]) := by
  unfold lexRun
  rw [lexLoop_check_step _ _ _ _ _ _ _ hws hc hchk]
  rw [List.drop_length, lexLoop_nil]
  have : 2 ≤ 0 + r.length + 1 ∧ 0 + r.length + 1 - 2 < (b :: r).length := by
    simp only [List.length_cons]
    omega
  rw [if_pos this]
  simp

/-- Every ASCII casing of `int` tokenizes to the single token Int. -/
theorem lexRun_casing_int (bs : List Nat)
    (hw : bs.map byteFold = asciiBytes "int") :
    lexRun bs = some (.ok [.Int]) := by
  have hlen : bs.length = 3 := by simpa using congrArg List.length hw
  obtain ⟨b, r, rfl⟩ : ∃ b r, bs = b :: r := by
    cases bs with
    | nil => simp at hlen
    | cons b r => exact ⟨b, r, rfl⟩
  have hb : byteFold b = 105 := by
    have h := hw
    rw [show asciiBytes "int" = [105, 110, 116] from by decide] at h
    simp only [List.map_cons, List.cons.injEq] at h
    exact h.1
  have hdropm : (r.drop 2).map byteFold = [] := by
    have he : r.drop 2 = (b :: r).drop 3 := rfl
    rw [he, List.map_drop, hw]
    decide
  have hchk : check (b :: r) = some (.Int, r.length) := by
    have hr : r.length = 2 := by simp at hlen; omega
    rw [hr]
    simp +decide [check, regexExec, foldTake_congr hw, foldTake_congr hdropm]
  obtain ⟨hws, hc⟩ := head_not_special hb (by omega)
  exact lexRun_single b r _ hws hc (by simp at hlen; omega) hchk

/-- Every ASCII casing of `integer` tokenizes to the single token Int
(the optional `(eger)?` group matches greedily). -/
theorem lexRun_casing_integer (bs : List Nat)
    (hw : bs.map byteFold = asciiBytes "integer") :
    lexRun bs = some (.ok [.Int]) := by
  have hlen : bs.length = 7 := by simpa using congrArg List.length hw
  obtain ⟨b, r, rfl⟩ : ∃ b r, bs = b :: r := by
    cases bs with
    | nil => simp at hlen
    | cons b r => exact ⟨b, r, rfl⟩
  have hb : byteFold b = 105 := by
    have h := hw
    rw [show asciiBytes "integer" = [105, 110, 116, 101, 103, 101, 114] from by decide] at h
    simp only [List.map_cons, List.cons.injEq] at h
    exact h.1
  have hdropm : (r.drop 2).map byteFold = [101, 103, 101, 114] := by
    have he : r.drop 2 = (b :: r).drop 3 := rfl
    rw [he, List.map_drop, hw]
    decide
  have hchk : check (b :: r) = some (.Int, r.length) := by
    have hr : r.length = 6 := by simp at hlen; omega
    rw [hr]
    simp +decide [check, regexExec, foldTake_congr hw, foldTake_congr hdropm]
  obtain ⟨hws, hc⟩ := head_not_special hb (by omega)
  exact lexRun_single b r _ hws hc (by simp at hlen; omega) hchk

/-- Every ASCII casing of `json` tokenizes to the single token Json. -/
theorem lexRun_casing_json (bs : List Nat)
    (hw : bs.map byteFold = asciiBytes "json") :
    lexRun bs = some (.ok [.Json]) := by
  have hlen : bs.length = 4 := by simpa using congrArg List.length hw
  obtain ⟨b, r, rfl⟩ : ∃ b r, bs = b :: r := by
    cases bs with
    | nil => simp at hlen
    | cons b r => exact ⟨b, r, rfl⟩
  have hb : byteFold b = 106 := by
    have h := hw
    rw [show asciiBytes "json" = [106, 115, 111, 110] from by decide] at h
    simp only [List.map_cons, List.cons.injEq] at h
    exact h.1
  have hchk : check (b :: r) = some (.Json, r.length) := by
    have hr : r.length = 3 := by simp at hlen; omega
    rw [hr]
    simp +decide [check, regexExec, foldTake_congr hw]
  obtain ⟨hws, hc⟩ := head_not_special hb (by omega)
  exact lexRun_single b r _ hws hc (by simp at hlen; omega) hchk

/-- Every ASCII casing of `varchar` tokenizes to the single token
Varchar. -/
theorem lexRun_casing_varchar (bs : List Nat)
    (hw : bs.map byteFold = asciiBytes "varchar") :
    lexRun bs = some (.ok [.Varchar]) := by
  have hlen : bs.length = 7 := by simpa using congrArg List.length hw
  obtain ⟨b, r, rfl⟩ : ∃ b r, bs = b :: r := by
    cases bs with
    | nil => simp at hlen
    | cons b r => exact ⟨b, r, rfl⟩
  have hb : byteFold b = 118 := by
    have h := hw
    rw [show asciiBytes "varchar" = [118, 97, 114, 99, 104, 97, 114] from by decide] at h
    simp only [List.map_cons, List.cons.injEq] at h
    exact h.1
  have hchk : check (b :: r) = some (.Varchar, r.length) := by
    have hr : r.length = 6 := by simp at hlen; omega
    rw [hr]
    simp +decide [check, regexExec, foldTake_congr hw]
  obtain ⟨hws, hc⟩ := head_not_special hb (by omega)
  exact lexRun_single b r _ hws hc (by simp at hlen; omega) hchk

/-- Every ASCII casing of `date` tokenizes to the single token Date. -/
theorem lexRun_casing_date (bs : List Nat)
    (hw : bs.map byteFold = asciiBytes "date") :
    lexRun bs = some (.ok [.Date]) := by
  have hlen : bs.length = 4 := by simpa using congrArg List.length hw
  obtain ⟨b, r, rfl⟩ : ∃ b r, bs = b :: r := by
    cases bs with
    | nil => simp at hlen
    | cons b r => exact ⟨b, r, rfl⟩
  have hb : byteFold b = 100 := by
    have h := hw
    rw [show asciiBytes "date" = [100, 97, 116, 101] from by decide] at h
    simp only [List.map_cons, List.cons.injEq] at h
    exact h.1
  have hchk : check (b :: r) = some (.Date, r.length) := by
    have hr : r.length = 3 := by simp at hlen; omega
    rw [hr]
    simp +decide [check, regexExec, foldTake_congr hw]
  obtain ⟨hws, hc⟩ := head_not_special hb (by omega)
  exact lexRun_single b r _ hws hc (by simp at hlen; omega) hchk

/-- Every ASCII casing of `not null` (single inner space) tokenizes to
the single token NotNull. -/
theorem lexRun_casing_notnull (bs : List Nat)
    (hw : bs.map byteFold = asciiBytes "not null") :
    lexRun bs = some (.ok [.NotNull]) := by
  have hlen : bs.length = 8 := by simpa using congrArg List.length hw
  obtain ⟨b, r, rfl⟩ : ∃ b r, bs = b :: r := by
    cases bs with
    | nil => simp at hlen
    | cons b r => exact ⟨b, r, rfl⟩
  have hb : byteFold b = 110 := by
    have h := hw
    rw [show asciiBytes "not null" = [110, 111, 116, 32, 110, 117, 108, 108] from by decide] at h
    simp only [List.map_cons, List.cons.injEq] at h
    exact h.1
  have hchk : check (b :: r) = some (.NotNull, r.length) := by
    have hr : r.length = 7 := by simp at hlen; omega
    rw [hr]
    simp +decide [check, regexExec, foldTake_congr hw]
  obtain ⟨hws, hc⟩ := head_not_special hb (by omega)
  exact lexRun_single b r _ hws hc (by simp at hlen; omega) hchk

/-- C9: keyword recognition is case-insensitive.  The three spellings
`create table`, `CREATE TABLE`, `Create Table` all tokenize to the
single CreateTable token, and every ASCII casing of the type keywords
INT/INTEGER, JSON, VARCHAR, DATE and of NOT NULL tokenizes to the same
keyword token as the upper-case spelling (a byte list `bs` is a casing
of a keyword exactly when folding its bytes to lower case gives the
keyword's lower-case spelling). -/
theorem case_insensitive_keywords :
    (lexRun (asciiBytes "create table") = some (.ok [.CreateTable]) ∧
      lexRun (asciiBytes "CREATE TABLE") = some (.ok [.CreateTable]) ∧
      lexRun (asciiBytes "Create Table") = some (.ok [.CreateTable])) ∧
    (∀ bs, bs.map byteFold = asciiBytes "int" → lexRun bs = some (.ok [.Int])) ∧
    (∀ bs, bs.map byteFold = asciiBytes "integer" → lexRun bs = some (.ok [.Int])) ∧
    (∀ bs, bs.map byteFold = asciiBytes "json" → lexRun bs = some (.ok [.Json])) ∧
    (∀ bs, bs.map byteFold = asciiBytes "varchar" → lexRun bs = some (.ok [.Varchar])) ∧
    (∀ bs, bs.map byteFold = asciiBytes "date" → lexRun bs = some (.ok [.Date])) ∧
    (∀ bs, bs.map byteFold = asciiBytes "not null" → lexRun bs = some (.ok [.NotNull])) := by
  refine ⟨⟨?_, ?_, ?_⟩, lexRun_casing_int, lexRun_casing_integer,
    lexRun_casing_json, lexRun_casing_varchar, lexRun_casing_date,
    lexRun_casing_notnull⟩ <;>
    simp +decide [lexRun, lexLoop, check, regexExec, symbolExec, textExec,
      foldTake, byteFold, asciiBytes, bytesToString, skipSpaceCount]

/-- Witness for C9: the mixed casings `iNt`, `Integer`, `JSon`,
`vArChAr`, `DatE`, `NoT NulL` all produce the upper-case spelling's
keyword token. -/
theorem case_insensitive_keywords_witness :
    lexRun (asciiBytes "iNt") = some (.ok [.Int]) ∧
      lexRun (asciiBytes "Integer") = some (.ok [.Int]) ∧
      lexRun (asciiBytes "JSon") = some (.ok [.Json]) ∧
      lexRun (asciiBytes "vArChAr") = some (.ok [.Varchar]) ∧
      lexRun (asciiBytes "DatE") = some (.ok [.Date]) ∧
      lexRun (asciiBytes "NoT NulL") = some (.ok [.NotNull]) :=
  ⟨case_insensitive_keywords.2.1 _ (by decide),
   case_insensitive_keywords.2.2.1 _ (by decide),
   case_insensitive_keywords.2.2.2.1 _ (by decide),
   case_insensitive_keywords.2.2.2.2.1 _ (by decide),
   case_insensitive_keywords.2.2.2.2.2.1 _ (by decide),
   case_insensitive_keywords.2.2.2.2.2.2 _ (by decide)⟩

/-- C10: keyword matchers take precedence over the identifier matcher
inside a longer identifier-like run.  First conjunct: at any loop
state, an input beginning with the bytes of `json` makes the lexer
emit the Json token and resume right after those four bytes, whatever
identifier characters follow.  Second conjunct: concretely,
`json_data` tokenizes to [Json, Identifier("_data")] — never to the
single token Identifier("json_data"). -/
theorem keyword_beats_identifier :
    (∀ (len pos : Nat) (acc : List LexicalToken) (rest : List Nat),
      lexLoop len pos acc (asciiBytes "json" ++ rest) =
        lexLoop len (pos + 4) (acc ++ [.Json]) rest) ∧
    lexRun (asciiBytes "json_data") = some (.ok [.Json, .Text "_data"]) := by
  constructor
  · intro len pos acc rest
    rw [show asciiBytes "json" = [106, 115, 111, 110] from by decide]
    simp only [List.cons_append, List.nil_append]
    rw [lexLoop_check_step len pos acc 106 (115 :: 111 :: 110 :: rest) .Json 3
      (by decide) (by decide) ?_]
    · rw [show pos + 3 + 1 = pos + 4 from rfl]
      rw [show (115 :: 111 :: 110 :: rest).drop 3 = rest from rfl]
    · have h1 : foldTake (asciiBytes "create table")
          (106 :: 115 :: 111 :: 110 :: rest) = false := by
        rw [foldTake, show asciiBytes "create table" =
          [99, 114, 101, 97, 116, 101, 32, 116, 97, 98, 108, 101] from by decide]
        simp +decide [List.take_succ_cons, byteFold, beq_iff_eq]
      have h2 : foldTake (asciiBytes "int")
          (106 :: 115 :: 111 :: 110 :: rest) = false := by
        rw [foldTake, show asciiBytes "int" = [105, 110, 116] from by decide]
        simp +decide [List.take_succ_cons, byteFold, beq_iff_eq]
      have h3 : foldTake (asciiBytes "json")
          (106 :: 115 :: 111 :: 110 :: rest) = true := by
        rw [foldTake, show asciiBytes "json" = [106, 115, 111, 110] from by decide]
        simp +decide [List.take_succ_cons, byteFold, beq_iff_eq]
      simp [check, regexExec, h1, h2, h3]
  · simp +decide [lexRun, lexLoop, check, regexExec, symbolExec, textExec,
      foldTake, byteFold, asciiBytes, bytesToString, skipSpaceCount]

/-- C6 (amended): whenever the scan reaches a cursor whose byte is not
whitespace, not a comma, and no matcher succeeds there, tokenization
fails with InvalidError carrying the message "Invalid input " followed
by the decimal value of that byte — the failing position is not part
of the error. -/
theorem lex_invalid_names_byte (len pos : Nat) (acc : List LexicalToken)
    (b : Nat) (r : List Nat) (hws : ¬(b = 32 ∨ b = 10 ∨ b = 9)) (hc : b ≠ 44)
    (hchk : check (b :: r) = none) :
    lexLoop len pos acc (b :: r) =
      some (.error (.InvalidError ("Invalid input " ++ toString b))) := by
  rw [lexLoop]
  simp [hws, hc, hchk]

/-- Witness for the amended C6: the loop state at byte `@` (64). -/
theorem lex_invalid_names_byte_witness :
    lexLoop 1 0 [] [64] =
      some (.error (.InvalidError ("Invalid input " ++ toString 64))) :=
  lex_invalid_names_byte 1 0 [] 64 [] (by decide) (by decide) (by decide)

/-! Lemmas for lexing a whole well-formed statement. -/

/-- Identifier bytes are neither whitespace nor the comma. -/
theorem textIsValid_not_special {b : Nat} (h : textIsValid b = true) :
    ¬(b = 32 ∨ b = 10 ∨ b = 9) ∧ b ≠ 44 := by
  constructor
  · rintro (rfl | rfl | rfl) <;> simp [textIsValid, isAlnumByte] at h
  · rintro rfl
    simp [textIsValid] at h

/-- takeWhile over a block that satisfies the predicate throughout,
stopped by a failing byte. -/
theorem takeWhile_all_append (p : Nat → Bool) (l : List Nat)
    (hl : ∀ x ∈ l, p x = true) (b : Nat) (hb : p b = false) (t : List Nat) :
    (l ++ b :: t).takeWhile p = l := by
  induction l with
  | nil => simp [List.takeWhile, hb]
  | cons a l ih =>
    have ha : p a = true := hl a (by simp)
    simp only [List.cons_append, List.takeWhile_cons, ha]
    simp only [ite_true, if_pos rfl]
    rw [ih (fun x hx => hl x (by simp [hx]))]

/-- A keyword pattern no longer than the identifier-plus-space block
sees only that block. -/
theorem foldTake_short (pat name : List Nat) (tail : List Nat)
    (hle : pat.length ≤ name.length + 1) :
    foldTake pat (name ++ 32 :: tail) = foldTake pat (name ++ [32]) := by
  unfold foldTake
  have htake : (name ++ 32 :: tail).take pat.length =
      (name ++ [32]).take pat.length := by
    rw [List.take_append_eq_append_take, List.take_append_eq_append_take]
    have h2 : pat.length - name.length ≤ 1 := by omega
    rcases Nat.le_one_iff_eq_zero_or_eq_one.mp h2 with h | h <;> rw [h] <;> simp
  rw [htake]

/-- A keyword pattern strictly longer than the identifier-plus-space
block matches only when the pattern itself has a space right after the
folded identifier, followed by the fold of the next byte. -/
theorem foldTake_long_decomp (pat name : List Nat) (b2 : Nat) (rest : List Nat)
    (hlt : name.length + 1 < pat.length)
    (h : foldTake pat (name ++ 32 :: b2 :: rest) = true) :
    pat.drop name.length =
      32 :: byteFold b2 ::
        ((rest.take (pat.length - (name.length + 2))).map byteFold) := by
  unfold foldTake at h
  rw [beq_iff_eq] at h
  have htake : (name ++ 32 :: b2 :: rest).take pat.length =
      name ++ 32 :: b2 :: rest.take (pat.length - (name.length + 2)) := by
    rw [List.take_append_eq_append_take]
    rw [List.take_of_length_le (by omega)]
    congr 1
    obtain ⟨m, hm⟩ : ∃ m, pat.length - name.length = m + 2 :=
      ⟨pat.length - name.length - 2, by omega⟩
    rw [hm, List.take_succ_cons, List.take_succ_cons]
    have : m = pat.length - (name.length + 2) := by omega
    rw [this]
  rw [htake] at h
  rw [List.map_append] at h
  simp only [List.map_cons] at h
  rw [show byteFold 32 = 32 from by decide] at h
  generalize hM : (rest.take (pat.length - (name.length + 2))).map byteFold = M at h ⊢
  rw [← h]
  rw [show (name.map byteFold ++ 32 :: byteFold b2 :: M).drop name.length =
    ((name.map byteFold) ++ (32 :: byteFold b2 :: M)).drop
      (name.map byteFold).length from by rw [List.length_map]]
  rw [List.drop_left]

/-- The only inner space of `create table` sits at index 6, followed
by `t` (116). -/
theorem createTable_space_shape (nl c : Nat) (tail : List Nat)
    (h1 : 1 ≤ nl) (h2 : nl + 2 ≤ 12)
    (h3 : (asciiBytes "create table").drop nl = 32 :: c :: tail) : c = 116 := by
  rw [show asciiBytes "create table" =
    [99, 114, 101, 97, 116, 101, 32, 116, 97, 98, 108, 101] from by decide] at h3
  have hub : nl ≤ 10 := by omega
  interval_cases nl <;> simp_all

/-- The only inner space of `not null` sits at index 3, followed by
`n` (110). -/
theorem notNull_space_shape (nl c : Nat) (tail : List Nat)
    (h1 : 1 ≤ nl) (h2 : nl + 2 ≤ 8)
    (h3 : (asciiBytes "not null").drop nl = 32 :: c :: tail) : c = 110 := by
  rw [show asciiBytes "not null" =
    [110, 111, 116, 32, 110, 117, 108, 108] from by decide] at h3
  have hub : nl ≤ 6 := by omega
  interval_cases nl <;> simp_all

/-- `int` has no inner space. -/
theorem int_no_space (nl c : Nat) (tail : List Nat)
    (h1 : 1 ≤ nl) (h2 : nl + 2 ≤ 3)
    (h3 : (asciiBytes "int").drop nl = 32 :: c :: tail) : False := by
  rw [show asciiBytes "int" = [105, 110, 116] from by decide] at h3
  have hub : nl ≤ 1 := by omega
  interval_cases nl <;> simp_all

/-- `json` has no inner space. -/
theorem json_no_space (nl c : Nat) (tail : List Nat)
    (h1 : 1 ≤ nl) (h2 : nl + 2 ≤ 4)
    (h3 : (asciiBytes "json").drop nl = 32 :: c :: tail) : False := by
  rw [show asciiBytes "json" = [106, 115, 111, 110] from by decide] at h3
  have hub : nl ≤ 2 := by omega
  interval_cases nl <;> simp_all

/-- `varchar` has no inner space. -/
theorem varchar_no_space (nl c : Nat) (tail : List Nat)
    (h1 : 1 ≤ nl) (h2 : nl + 2 ≤ 7)
    (h3 : (asciiBytes "varchar").drop nl = 32 :: c :: tail) : False := by
  rw [show asciiBytes "varchar" =
    [118, 97, 114, 99, 104, 97, 114] from by decide] at h3
  have hub : nl ≤ 5 := by omega
  interval_cases nl <;> simp_all

/-- `date` has no inner space. -/
theorem date_no_space (nl c : Nat) (tail : List Nat)
    (h1 : 1 ≤ nl) (h2 : nl + 2 ≤ 4)
    (h3 : (asciiBytes "date").drop nl = 32 :: c :: tail) : False := by
  rw [show asciiBytes "date" = [100, 97, 116, 101] from by decide] at h3
  have hub : nl ≤ 2 := by omega
  interval_cases nl <;> simp_all

/-- At an identifier position of a well-formed statement (identifier,
space, then a byte whose fold is neither `t` nor `n`), no keyword
pattern matches, whatever follows. -/
theorem regexExec_valid_name (name : List Nat) (b2 : Nat) (rest : List Nat)
    (hne : name ≠ [])
    (hkw : ∀ pat ∈ kwPatterns, foldTake pat (name ++ [32]) = false)
    (hb2t : byteFold b2 ≠ 116) (hb2n : byteFold b2 ≠ 110) :
    regexExec (name ++ 32 :: b2 :: rest) = none := by
  have hlen : 1 ≤ name.length := by
    cases name with
    | nil => exact absurd rfl hne
    | cons a l => simp
  have key : ∀ pat ∈ kwPatterns, foldTake pat (name ++ 32 :: b2 :: rest) = false := by
    intro pat hpat
    by_cases hle : pat.length ≤ name.length + 1
    · rw [foldTake_short pat name _ hle]
      exact hkw pat hpat
    · push_neg at hle
      by_contra hcon
      rw [Bool.not_eq_false] at hcon
      have hdec := foldTake_long_decomp pat name b2 rest hle hcon
      simp only [kwPatterns, List.mem_cons, List.not_mem_nil, or_false] at hpat
      rcases hpat with rfl | rfl | rfl | rfl | rfl | rfl
      · exact hb2t (createTable_space_shape name.length (byteFold b2) _ hlen
          (by have := hle; rw [show (asciiBytes "create table").length = 12
            from by decide] at this; omega) hdec)
      · exact int_no_space name.length (byteFold b2) _ hlen
          (by have := hle; rw [show (asciiBytes "int").length = 3
            from by decide] at this; omega) hdec
      · exact json_no_space name.length (byteFold b2) _ hlen
          (by have := hle; rw [show (asciiBytes "json").length = 4
            from by decide] at this; omega) hdec
      · exact varchar_no_space name.length (byteFold b2) _ hlen
          (by have := hle; rw [show (asciiBytes "varchar").length = 7
            from by decide] at this; omega) hdec
      · exact date_no_space name.length (byteFold b2) _ hlen
          (by have := hle; rw [show (asciiBytes "date").length = 4
            from by decide] at this; omega) hdec
      · exact hb2n (notNull_space_shape name.length (byteFold b2) _ hlen
          (by have := hle; rw [show (asciiBytes "not null").length = 8
            from by decide] at this; omega) hdec)
  unfold regexExec
  rw [key (asciiBytes "create table") (by simp [kwPatterns]),
    key (asciiBytes "int") (by simp [kwPatterns]),
    key (asciiBytes "json") (by simp [kwPatterns]),
    key (asciiBytes "varchar") (by simp [kwPatterns]),
    key (asciiBytes "date") (by simp [kwPatterns]),
    key (asciiBytes "not null") (by simp [kwPatterns])]
  simp

/-- Dispatch at an identifier position: the Text matcher wins and
consumes exactly the identifier run (reporting its exclusive end). -/
theorem check_valid_name (name : List Nat) (b2 : Nat) (rest : List Nat)
    (hvn : validName name)
    (hb2t : byteFold b2 ≠ 116) (hb2n : byteFold b2 ≠ 110) :
    check (name ++ 32 :: b2 :: rest) =
      some (.Text (bytesToString name), name.length) := by
  obtain ⟨hne, hvalid, hkw⟩ := hvn
  have hreg := regexExec_valid_name name b2 rest hne hkw hb2t hb2n
  obtain ⟨n0, ntail, rfl⟩ : ∃ n0 ntail, name = n0 :: ntail := by
    cases name with
    | nil => exact absurd rfl hne
    | cons a l => exact ⟨a, l, rfl⟩
  have hn0 : textIsValid n0 = true := hvalid n0 (by simp)
  have hsym : symbolExec ((n0 :: ntail) ++ 32 :: b2 :: rest) = none := by
    simp only [List.cons_append, symbolExec]
    have h40 : n0 ≠ 40 := by rintro rfl; simp [textIsValid, isAlnumByte] at hn0
    have h41 : n0 ≠ 41 := by rintro rfl; simp [textIsValid, isAlnumByte] at hn0
    have h59 : n0 ≠ 59 := by rintro rfl; simp [textIsValid, isAlnumByte] at hn0
    simp [h40, h41, h59]
  have htw : ((n0 :: ntail) ++ 32 :: b2 :: rest).takeWhile textIsValid =
      n0 :: ntail :=
    takeWhile_all_append textIsValid (n0 :: ntail) hvalid 32 (by decide) _
  unfold check
  rw [hreg, hsym]
  unfold textExec
  simp only [htw]
  rw [if_neg (by simp)]
  rw [show ((n0 :: ntail) ++ 32 :: b2 :: rest).take (n0 :: ntail).length =
    n0 :: ntail from List.take_left ..]

/-- The keyword patterns all start with a letter whose fold is one of
c, i, j, v, d, n; a head byte folding to anything else defeats them
all. -/
theorem regexExec_head_mismatch (b : Nat) (rest : List Nat)
    (hb : byteFold b ≠ 99 ∧ byteFold b ≠ 105 ∧ byteFold b ≠ 106 ∧
      byteFold b ≠ 118 ∧ byteFold b ≠ 100 ∧ byteFold b ≠ 110) :
    regexExec (b :: rest) = none := by
  obtain ⟨h1, h2, h3, h4, h5, h6⟩ := hb
  unfold regexExec
  rw [show foldTake (asciiBytes "create table") (b :: rest) = false from by
    rw [foldTake, show asciiBytes "create table" =
      [99, 114, 101, 97, 116, 101, 32, 116, 97, 98, 108, 101] from by decide]
    simp [List.take_succ_cons, beq_iff_eq, h1]]
  rw [show foldTake (asciiBytes "int") (b :: rest) = false from by
    rw [foldTake, show asciiBytes "int" = [105, 110, 116] from by decide]
    simp [List.take_succ_cons, beq_iff_eq, h2]]
  rw [show foldTake (asciiBytes "json") (b :: rest) = false from by
    rw [foldTake, show asciiBytes "json" = [106, 115, 111, 110] from by decide]
    simp [List.take_succ_cons, beq_iff_eq, h3]]
  rw [show foldTake (asciiBytes "varchar") (b :: rest) = false from by
    rw [foldTake, show asciiBytes "varchar" =
      [118, 97, 114, 99, 104, 97, 114] from by decide]
    simp [List.take_succ_cons, beq_iff_eq, h4]]
  rw [show foldTake (asciiBytes "date") (b :: rest) = false from by
    rw [foldTake, show asciiBytes "date" = [100, 97, 116, 101] from by decide]
    simp [List.take_succ_cons, beq_iff_eq, h5]]
  rw [show foldTake (asciiBytes "not null") (b :: rest) = false from by
    rw [foldTake, show asciiBytes "not null" =
      [110, 111, 116, 32, 110, 117, 108, 108] from by decide]
    simp [List.take_succ_cons, beq_iff_eq, h6]]
  simp

/-- Dispatch at `(`. -/
theorem check_lparen (rest : List Nat) :
    check (40 :: rest) = some (.LParen, 0) := by
  unfold check
  rw [regexExec_head_mismatch 40 rest (by decide)]
  simp [symbolExec]

/-- Dispatch at `)`. -/
theorem check_rparen (rest : List Nat) :
    check (41 :: rest) = some (.RParen, 0) := by
  unfold check
  rw [regexExec_head_mismatch 41 rest (by decide)]
  simp [symbolExec]

/-- Dispatch at `;`. -/
theorem check_semicolon (rest : List Nat) :
    check (59 :: rest) = some (.Semicolon, 0) := by
  unfold check
  rw [regexExec_head_mismatch 59 rest (by decide)]
  simp [symbolExec]

/-- Dispatch at a type keyword written in its canonical upper-case
spelling, followed by a byte that cannot extend the match (its fold is
not `e`, so `INT` does not continue into `INTEGER`). -/
theorem check_ctKeyword (ct : ColumnType) (b2 : Nat) (rest : List Nat)
    (hb2 : byteFold b2 ≠ 101) :
    check (ctKeyword ct ++ b2 :: rest) =
      some (ctLexTok ct, (ctKeyword ct).length - 1) := by
  cases ct
  case Int =>
    rw [show ctKeyword .Int = [73, 78, 84] from by decide]
    simp only [List.cons_append, List.nil_append]
    unfold check regexExec
    rw [show foldTake (asciiBytes "create table")
        (73 :: 78 :: 84 :: b2 :: rest) = false from by
      rw [foldTake, show asciiBytes "create table" =
        [99, 114, 101, 97, 116, 101, 32, 116, 97, 98, 108, 101] from by decide]
      simp +decide [List.take_succ_cons, beq_iff_eq, byteFold]]
    rw [show foldTake (asciiBytes "int") (73 :: 78 :: 84 :: b2 :: rest) = true from by
      rw [foldTake, show asciiBytes "int" = [105, 110, 116] from by decide]
      simp +decide [List.take_succ_cons, beq_iff_eq, byteFold]]
    rw [show foldTake (asciiBytes "eger")
        ((73 :: 78 :: 84 :: b2 :: rest).drop 3) = false from by
      rw [show (73 :: 78 :: 84 :: b2 :: rest).drop 3 = b2 :: rest from rfl]
      rw [foldTake, show asciiBytes "eger" = [101, 103, 101, 114] from by decide]
      simp [List.take_succ_cons, beq_iff_eq, hb2]]
    simp [ctLexTok]
  case Json =>
    rw [show ctKeyword .Json = [74, 83, 79, 78] from by decide]
    simp only [List.cons_append, List.nil_append]
    unfold check regexExec
    rw [show foldTake (asciiBytes "create table")
        (74 :: 83 :: 79 :: 78 :: b2 :: rest) = false from by
      rw [foldTake, show asciiBytes "create table" =
        [99, 114, 101, 97, 116, 101, 32, 116, 97, 98, 108, 101] from by decide]
      simp +decide [List.take_succ_cons, beq_iff_eq, byteFold]]
    rw [show foldTake (asciiBytes "int")
        (74 :: 83 :: 79 :: 78 :: b2 :: rest) = false from by
      rw [foldTake, show asciiBytes "int" = [105, 110, 116] from by decide]
      simp +decide [List.take_succ_cons, beq_iff_eq, byteFold]]
    rw [show foldTake (asciiBytes "json")
        (74 :: 83 :: 79 :: 78 :: b2 :: rest) = true from by
      rw [foldTake, show asciiBytes "json" = [106, 115, 111, 110] from by decide]
      simp +decide [List.take_succ_cons, beq_iff_eq, byteFold]]
    simp [ctLexTok]
  case Varchar =>
    rw [show ctKeyword .Varchar = [86, 65, 82, 67, 72, 65, 82] from by decide]
    simp only [List.cons_append, List.nil_append]
    unfold check regexExec
    rw [show foldTake (asciiBytes "create table")
        (86 :: 65 :: 82 :: 67 :: 72 :: 65 :: 82 :: b2 :: rest) = false from by
      rw [foldTake, show asciiBytes "create table" =
        [99, 114, 101, 97, 116, 101, 32, 116, 97, 98, 108, 101] from by decide]
      simp +decide [List.take_succ_cons, beq_iff_eq, byteFold]]
    rw [show foldTake (asciiBytes "int")
        (86 :: 65 :: 82 :: 67 :: 72 :: 65 :: 82 :: b2 :: rest) = false from by
      rw [foldTake, show asciiBytes "int" = [105, 110, 116] from by decide]
      simp +decide [List.take_succ_cons, beq_iff_eq, byteFold]]
    rw [show foldTake (asciiBytes "json")
        (86 :: 65 :: 82 :: 67 :: 72 :: 65 :: 82 :: b2 :: rest) = false from by
      rw [foldTake, show asciiBytes "json" = [106, 115, 111, 110] from by decide]
      simp +decide [List.take_succ_cons, beq_iff_eq, byteFold]]
    rw [show foldTake (asciiBytes "varchar")
        (86 :: 65 :: 82 :: 67 :: 72 :: 65 :: 82 :: b2 :: rest) = true from by
      rw [foldTake, show asciiBytes "varchar" =
        [118, 97, 114, 99, 104, 97, 114] from by decide]
      simp +decide [List.take_succ_cons, beq_iff_eq, byteFold]]
    simp [ctLexTok]
  case Date =>
    rw [show ctKeyword .Date = [68, 65, 84, 69] from by decide]
    simp only [List.cons_append, List.nil_append]
    unfold check regexExec
    rw [show foldTake (asciiBytes "create table")
        (68 :: 65 :: 84 :: 69 :: b2 :: rest) = false from by
      rw [foldTake, show asciiBytes "create table" =
        [99, 114, 101, 97, 116, 101, 32, 116, 97, 98, 108, 101] from by decide]
      simp +decide [List.take_succ_cons, beq_iff_eq, byteFold]]
    rw [show foldTake (asciiBytes "int")
        (68 :: 65 :: 84 :: 69 :: b2 :: rest) = false from by
      rw [foldTake, show asciiBytes "int" = [105, 110, 116] from by decide]
      simp +decide [List.take_succ_cons, beq_iff_eq, byteFold]]
    rw [show foldTake (asciiBytes "json")
        (68 :: 65 :: 84 :: 69 :: b2 :: rest) = false from by
      rw [foldTake, show asciiBytes "json" = [106, 115, 111, 110] from by decide]
      simp +decide [List.take_succ_cons, beq_iff_eq, byteFold]]
    rw [show foldTake (asciiBytes "varchar")
        (68 :: 65 :: 84 :: 69 :: b2 :: rest) = false from by
      rw [foldTake, show asciiBytes "varchar" =
        [118, 97, 114, 99, 104, 97, 114] from by decide]
      simp +decide [List.take_succ_cons, beq_iff_eq, byteFold]]
    rw [show foldTake (asciiBytes "date")
        (68 :: 65 :: 84 :: 69 :: b2 :: rest) = true from by
      rw [foldTake, show asciiBytes "date" = [100, 97, 116, 101] from by decide]
      simp +decide [List.take_succ_cons, beq_iff_eq, byteFold]]
    simp [ctLexTok]

/-- Dispatch at `NOT NULL` (canonical upper-case spelling). -/
theorem check_notnull (rest : List Nat) :
    check (asciiBytes "NOT NULL" ++ rest) = some (.NotNull, 7) := by
  rw [show asciiBytes "NOT NULL" =
    [78, 79, 84, 32, 78, 85, 76, 76] from by decide]
  simp only [List.cons_append, List.nil_append]
  unfold check regexExec
  rw [show foldTake (asciiBytes "create table")
      (78 :: 79 :: 84 :: 32 :: 78 :: 85 :: 76 :: 76 :: rest) = false from by
    rw [foldTake, show asciiBytes "create table" =
      [99, 114, 101, 97, 116, 101, 32, 116, 97, 98, 108, 101] from by decide]
    simp +decide [List.take_succ_cons, beq_iff_eq, byteFold]]
  rw [show foldTake (asciiBytes "int")
      (78 :: 79 :: 84 :: 32 :: 78 :: 85 :: 76 :: 76 :: rest) = false from by
    rw [foldTake, show asciiBytes "int" = [105, 110, 116] from by decide]
    simp +decide [List.take_succ_cons, beq_iff_eq, byteFold]]
  rw [show foldTake (asciiBytes "json")
      (78 :: 79 :: 84 :: 32 :: 78 :: 85 :: 76 :: 76 :: rest) = false from by
    rw [foldTake, show asciiBytes "json" = [106, 115, 111, 110] from by decide]
    simp +decide [List.take_succ_cons, beq_iff_eq, byteFold]]
  rw [show foldTake (asciiBytes "varchar")
      (78 :: 79 :: 84 :: 32 :: 78 :: 85 :: 76 :: 76 :: rest) = false from by
    rw [foldTake, show asciiBytes "varchar" =
      [118, 97, 114, 99, 104, 97, 114] from by decide]
    simp +decide [List.take_succ_cons, beq_iff_eq, byteFold]]
  rw [show foldTake (asciiBytes "date")
      (78 :: 79 :: 84 :: 32 :: 78 :: 85 :: 76 :: 76 :: rest) = false from by
    rw [foldTake, show asciiBytes "date" = [100, 97, 116, 101] from by decide]
    simp +decide [List.take_succ_cons, beq_iff_eq, byteFold]]
  rw [show foldTake (asciiBytes "not null")
      (78 :: 79 :: 84 :: 32 :: 78 :: 85 :: 76 :: 76 :: rest) = true from by
    rw [foldTake, show asciiBytes "not null" =
      [110, 111, 116, 32, 110, 117, 108, 108] from by decide]
    simp +decide [List.take_succ_cons, beq_iff_eq, byteFold]]
  simp

/-- lexLoop_check_step for an input given by a shape equation, with
the new suffix expressed by a drop on the whole input. -/
theorem lexLoop_check_step_gen (len pos : Nat) (acc : List LexicalToken)
    (input : List Nat) (b : Nat) (r : List Nat) (tok : LexicalToken)
    (endOff : Nat) (hbr : input = b :: r)
    (hws : ¬(b = 32 ∨ b = 10 ∨ b = 9)) (hc : b ≠ 44)
    (hchk : check input = some (tok, endOff)) :
    lexLoop len pos acc input =
      lexLoop len (pos + endOff + 1) (acc ++ [tok]) (input.drop (endOff + 1)) := by
  subst hbr
  rw [lexLoop_check_step _ _ _ _ _ _ _ hws hc hchk, List.drop_succ_cons]

/-- Every type keyword starts with a letter that folds to something
other than `t`, `n`, `e`. -/
theorem ctKeyword_head (ct : ColumnType) :
    ∃ k0 ktail, ctKeyword ct = k0 :: ktail ∧ 97 ≤ byteFold k0 ∧
      byteFold k0 ≤ 122 ∧ byteFold k0 ≠ 116 ∧ byteFold k0 ≠ 110 := by
  cases ct
  case Int => exact ⟨73, [78, 84], by decide, by decide, by decide,
    by decide, by decide⟩
  case Json => exact ⟨74, [83, 79, 78], by decide, by decide, by decide,
    by decide, by decide⟩
  case Varchar => exact ⟨86, [65, 82, 67, 72, 65, 82], by decide, by decide,
    by decide, by decide, by decide⟩
  case Date => exact ⟨68, [65, 84, 69], by decide, by decide, by decide,
    by decide, by decide⟩

/-- Dropping an identifier-plus-space block. -/
theorem drop_name_space (nm X : List Nat) :
    (nm ++ 32 :: X).drop (nm.length + 1) = X := by
  rw [List.append_cons]
  rw [show nm.length + 1 = (nm ++ [32]).length from by simp]
  exact List.drop_left ..

/-- One full column declaration advances the loop by its rendered
length and appends exactly its tokens, whatever follows (as long as it
does not start with whitespace, so the single skipped space stops in
the right place). -/
theorem lexLoop_renderColumn (c : SourceColumn) (T : List Nat) (len pos : Nat)
    (acc : List LexicalToken) (hvn : validName c.name)
    (hT : ∀ b ∈ T.head?, ¬(b = 32 ∨ b = 10 ∨ b = 9)) :
    lexLoop len pos acc (renderColumn c ++ T) =
      lexLoop len (pos + (renderColumn c).length)
        (acc ++ columnTokens (tokenSpec c)) T := by
  obtain ⟨nm, ct, null⟩ := c
  obtain ⟨k0, ktail, hk, hk97, hk122, hk116, hk110⟩ := ctKeyword_head ct
  obtain ⟨n0, ntail, hn⟩ : ∃ n0 ntail, nm = n0 :: ntail := by
    cases hnm : nm with
    | nil => exact absurd hnm hvn.1
    | cons a l => exact ⟨a, l, rfl⟩
  have hn0 : textIsValid n0 = true := hvn.2.1 n0 (by rw [hn]; simp)
  obtain ⟨hn0ws, hn0c⟩ := textIsValid_not_special hn0
  obtain ⟨hk0ws, hk0c⟩ := head_not_special (rfl : byteFold k0 = byteFold k0)
    ⟨hk97, hk122⟩
  have hctlen : (ctKeyword ct).length = ktail.length + 1 := by rw [hk]; simp
  cases null
  case true =>
    have hshape : renderColumn ⟨nm, ct, true⟩ ++ T =
        nm ++ 32 :: (ctKeyword ct ++ 44 :: 32 :: T) := by
      simp [renderColumn]
    rw [hshape]
    rw [lexLoop_check_step_gen len pos acc _ n0
      (ntail ++ 32 :: (ctKeyword ct ++ 44 :: 32 :: T))
      (.Text (bytesToString nm)) nm.length
      (by rw [hn]; simp) hn0ws hn0c
      (by
        rw [show nm ++ 32 :: (ctKeyword ct ++ 44 :: 32 :: T) =
          nm ++ 32 :: k0 :: (ktail ++ 44 :: 32 :: T) from by rw [hk]; simp]
        exact check_valid_name nm k0 _ hvn hk116 hk110)]
    rw [drop_name_space]
    rw [lexLoop_check_step_gen len _ _ _ k0 (ktail ++ 44 :: 32 :: T)
      (ctLexTok ct) ((ctKeyword ct).length - 1)
      (by rw [hk]; simp) hk0ws hk0c
      (check_ctKeyword ct 44 (32 :: T) (by decide))]
    rw [show (ctKeyword ct).length - 1 + 1 = (ctKeyword ct).length from by omega]
    rw [show (ctKeyword ct ++ 44 :: 32 :: T).drop (ctKeyword ct).length =
      44 :: 32 :: T from List.drop_left ..]
    rw [lexLoop_comma_step, lexLoop_space_one _ _ _ _ hT]
    congr 1
    · simp [renderColumn, hctlen]
      omega
    · simp [columnTokens, tokenSpec]
  case false =>
    have hshape : renderColumn ⟨nm, ct, false⟩ ++ T =
        nm ++ 32 :: (ctKeyword ct ++ 32 ::
          (asciiBytes "NOT NULL" ++ 44 :: 32 :: T)) := by
      simp [renderColumn, asciiBytes]
    rw [hshape]
    rw [lexLoop_check_step_gen len pos acc _ n0
      (ntail ++ 32 :: (ctKeyword ct ++ 32 :: (asciiBytes "NOT NULL" ++ 44 :: 32 :: T)))
      (.Text (bytesToString nm)) nm.length
      (by rw [hn]; simp) hn0ws hn0c
      (by
        rw [show nm ++ 32 :: (ctKeyword ct ++ 32 ::
            (asciiBytes "NOT NULL" ++ 44 :: 32 :: T)) =
          nm ++ 32 :: k0 :: (ktail ++ 32 ::
            (asciiBytes "NOT NULL" ++ 44 :: 32 :: T)) from by rw [hk]; simp]
        exact check_valid_name nm k0 _ hvn hk116 hk110)]
    rw [drop_name_space]
    rw [lexLoop_check_step_gen len _ _ _ k0
      (ktail ++ 32 :: (asciiBytes "NOT NULL" ++ 44 :: 32 :: T))
      (ctLexTok ct) ((ctKeyword ct).length - 1)
      (by rw [hk]; simp) hk0ws hk0c
      (check_ctKeyword ct 32 (asciiBytes "NOT NULL" ++ 44 :: 32 :: T) (by decide))]
    rw [show (ctKeyword ct).length - 1 + 1 = (ctKeyword ct).length from by omega]
    rw [show (ctKeyword ct ++ 32 :: (asciiBytes "NOT NULL" ++ 44 :: 32 :: T)).drop
      (ctKeyword ct).length = 32 :: (asciiBytes "NOT NULL" ++ 44 :: 32 :: T)
      from List.drop_left ..]
    rw [lexLoop_space_one _ _ _ _ (by
      rw [show asciiBytes "NOT NULL" = [78, 79, 84, 32, 78, 85, 76, 76]
        from by decide]
      intro b hb
      simp at hb
      omega)]
    rw [lexLoop_check_step_gen len _ _ _ 78
      ([79, 84, 32, 78, 85, 76, 76] ++ 44 :: 32 :: T) .NotNull 7
      (by rw [show asciiBytes "NOT NULL" = [78, 79, 84, 32, 78, 85, 76, 76]
        from by decide]; simp) (by decide) (by decide)
      (check_notnull _)]
    rw [show (asciiBytes "NOT NULL" ++ 44 :: 32 :: T).drop (7 + 1) =
      44 :: 32 :: T from by
        rw [show asciiBytes "NOT NULL" = [78, 79, 84, 32, 78, 85, 76, 76]
          from by decide]
        rfl]
    rw [lexLoop_comma_step, lexLoop_space_one _ _ _ _ hT]
    congr 1
    · simp [renderColumn, hctlen, asciiBytes]
      omega
    · simp [columnTokens, tokenSpec]

/-- A run of rendered columns advances the loop by its total length
and appends each column's tokens in declaration order, stopping at the
closing `);`. -/
theorem lexLoop_renderColumns (cols : List SourceColumn) (len pos : Nat)
    (acc : List LexicalToken) (hcols : ∀ c ∈ cols, validName c.name) :
    lexLoop len pos acc (cols.flatMap renderColumn ++ [41, 59]) =
      lexLoop len (pos + (cols.flatMap renderColumn).length)
        (acc ++ (cols.map tokenSpec).flatMap columnTokens) [41, 59] := by
  induction cols generalizing pos acc with
  | nil => simp
  | cons c cs ih =>
    rw [show (c :: cs).flatMap renderColumn ++ [41, 59] =
      renderColumn c ++ (cs.flatMap renderColumn ++ [41, 59]) from by
        simp [List.flatMap_cons]]
    rw [lexLoop_renderColumn c _ len pos acc (hcols c (by simp)) ?hT]
    case hT =>
      cases cs with
      | nil =>
        intro b hb
        simp at hb
        omega
      | cons c' cs' =>
        intro b hb
        have hv : validName c'.name := hcols c' (by simp)
        obtain ⟨n0, ntail, hn⟩ : ∃ n0 t, c'.name = n0 :: t := by
          cases hnm : c'.name with
          | nil => exact absurd hnm hv.1
          | cons a l => exact ⟨a, l, rfl⟩
        have hh : ((c' :: cs').flatMap renderColumn ++ [41, 59]).head? =
            some n0 := by
          simp only [List.flatMap_cons, renderColumn, hn]
          simp
        rw [hh] at hb
        simp at hb
        subst hb
        exact (textIsValid_not_special (hv.2.1 n0 (by rw [hn]; simp))).1
    rw [ih _ _ (fun x hx => hcols x (by simp [hx]))]
    congr 1
    · simp [List.flatMap_cons]
      omega
    · simp [List.flatMap_cons]

/-- Lexer::run on the rendered source text of a whole well-formed
statement: the expected token sequence comes out (and the final stray
read stays in bounds). -/
theorem lexRun_renderStatement (tbl : List Nat) (c : SourceColumn)
    (cs : List SourceColumn) (htbl : validName tbl)
    (hcols : ∀ x ∈ c :: cs, validName x.name) :
    lexRun (renderStatement tbl (c :: cs)) =
      some (.ok ([.CreateTable, .Text (bytesToString tbl), .LParen] ++
        ((c :: cs).map tokenSpec).flatMap columnTokens ++
        [.RParen, .Semicolon])) := by
  obtain ⟨t0, ttail, htn⟩ : ∃ t0 t, tbl = t0 :: t := by
    cases htb : tbl with
    | nil => exact absurd htb htbl.1
    | cons a l => exact ⟨a, l, rfl⟩
  have ht0 : textIsValid t0 = true := htbl.2.1 t0 (by rw [htn]; simp)
  obtain ⟨ht0ws, ht0c⟩ := textIsValid_not_special ht0
  have hshape : renderStatement tbl (c :: cs) =
      67 :: 82 :: 69 :: 65 :: 84 :: 69 :: 32 :: 84 :: 65 :: 66 :: 76 :: 69 ::
        32 :: (tbl ++ 32 :: 40 ::
          ((c :: cs).flatMap renderColumn ++ [41, 59])) := by
    rw [renderStatement, show asciiBytes "CREATE TABLE " =
      [67, 82, 69, 65, 84, 69, 32, 84, 65, 66, 76, 69, 32] from by decide]
    simp
  unfold lexRun
  rw [hshape]
  rw [lexLoop_check_step_gen _ _ _ _ 67
    (82 :: 69 :: 65 :: 84 :: 69 :: 32 :: 84 :: 65 :: 66 :: 76 :: 69 :: 32 ::
      (tbl ++ 32 :: 40 :: ((c :: cs).flatMap renderColumn ++ [41, 59])))
    .CreateTable 11 rfl (by decide) (by decide) ?hct]
  case hct =>
    unfold check regexExec
    rw [show foldTake (asciiBytes "create table")
        (67 :: 82 :: 69 :: 65 :: 84 :: 69 :: 32 :: 84 :: 65 :: 66 :: 76 :: 69 ::
          32 :: (tbl ++ 32 :: 40 ::
            ((c :: cs).flatMap renderColumn ++ [41, 59]))) = true from by
      rw [foldTake, show asciiBytes "create table" =
        [99, 114, 101, 97, 116, 101, 32, 116, 97, 98, 108, 101] from by decide]
      simp +decide [List.take_succ_cons, beq_iff_eq, byteFold]]
    simp
  rw [show (67 :: 82 :: 69 :: 65 :: 84 :: 69 :: 32 :: 84 :: 65 :: 66 :: 76 :: 69 ::
      32 :: (tbl ++ 32 :: 40 :: ((c :: cs).flatMap renderColumn ++ [41, 59]))).drop
        (11 + 1) =
    32 :: (tbl ++ 32 :: 40 :: ((c :: cs).flatMap renderColumn ++ [41, 59]))
    from rfl]
  rw [lexLoop_space_one _ _ _ _ (by
    rw [htn]
    intro b hb
    simp at hb
    subst hb
    exact ht0ws)]
  rw [lexLoop_check_step_gen _ _ _ _ t0 (ttail ++ 32 :: 40 ::
      ((c :: cs).flatMap renderColumn ++ [41, 59]))
    (.Text (bytesToString tbl)) tbl.length (by rw [htn]; simp) ht0ws ht0c
    (check_valid_name tbl 40 _ htbl (by decide) (by decide))]
  rw [drop_name_space tbl (40 :: ((c :: cs).flatMap renderColumn ++ [41, 59]))]
  rw [lexLoop_check_step_gen _ _ _ _ 40
    ((c :: cs).flatMap renderColumn ++ [41, 59]) .LParen 0 rfl
    (by decide) (by decide) (check_lparen _)]
  rw [show (40 :: ((c :: cs).flatMap renderColumn ++ [41, 59])).drop (0 + 1) =
    (c :: cs).flatMap renderColumn ++ [41, 59] from rfl]
  rw [lexLoop_renderColumns (c :: cs) _ _ _ hcols]
  rw [lexLoop_check_step_gen _ _ _ _ 41 [59] .RParen 0 rfl
    (by decide) (by decide) (check_rparen _)]
  rw [show ([41, 59] : List Nat).drop (0 + 1) = [59] from rfl]
  rw [lexLoop_check_step_gen _ _ _ _ 59 [] .Semicolon 0 rfl
    (by decide) (by decide) (check_semicolon _)]
  rw [show ([59] : List Nat).drop (0 + 1) = ([] : List Nat) from rfl]
  rw [lexLoop_nil]
  rw [if_pos (by
    constructor
    · omega
    · simp
      omega)]
  simp

/-- C1: for every well-formed CREATE TABLE statement (any valid table
name, any nonempty list of columns with valid names, arbitrary types
and nullability), the full pipeline — tokenize, parse, build —
succeeds and yields a Table whose fields are exactly one Field per
declared column, in left-to-right declaration order; in particular
there are exactly N fields for N declared columns (second conjunct). -/
theorem pipeline_round_trip (tbl : List Nat) (c : SourceColumn)
    (cs : List SourceColumn) (htbl : validName tbl)
    (hcols : ∀ x ∈ c :: cs, validName x.name) :
    pipeline (renderStatement tbl (c :: cs)) =
      some (.ok ⟨bytesToString tbl,
        (c :: cs).map fun x => ⟨bytesToString x.name, columnTypeName x.ctype⟩⟩) ∧
    ((c :: cs).map fun x =>
        (⟨bytesToString x.name, columnTypeName x.ctype⟩ : Field)).length =
      (c :: cs).length := by
  refine ⟨?_, by simp⟩
  unfold pipeline
  rw [lexRun_renderStatement tbl c cs htbl hcols]
  rw [show ([LexicalToken.CreateTable, .Text (bytesToString tbl), .LParen] ++
      ((c :: cs).map tokenSpec).flatMap columnTokens ++ [.RParen, .Semicolon]) =
    (.CreateTable :: .Text (bytesToString tbl) :: .LParen ::
      (columnTokens (tokenSpec c) ++ (cs.map tokenSpec).flatMap columnTokens ++
        [.RParen, .Semicolon])) from by simp]
  simp only [parserRun, parse_expr_statement, interpRun_statement]
  simp [fieldOf, tokenSpec]

/-- Witness for C1: the rendered two-column statement
`CREATE TABLE users (id INT NOT NULL, name VARCHAR, );` round-trips to
the expected two-field table. -/
theorem pipeline_round_trip_witness :
    pipeline (renderStatement (asciiBytes "users")
        [⟨asciiBytes "id", .Int, false⟩, ⟨asciiBytes "name", .Varchar, true⟩]) =
      some (.ok ⟨bytesToString (asciiBytes "users"),
        ([⟨asciiBytes "id", .Int, false⟩,
          ⟨asciiBytes "name", .Varchar, true⟩] : List SourceColumn).map
          fun x => ⟨bytesToString x.name, columnTypeName x.ctype⟩⟩) ∧
    (([⟨asciiBytes "id", .Int, false⟩,
        ⟨asciiBytes "name", .Varchar, true⟩] : List SourceColumn).map
        fun x => (⟨bytesToString x.name, columnTypeName x.ctype⟩ : Field)).length =
      ([⟨asciiBytes "id", .Int, false⟩,
        ⟨asciiBytes "name", .Varchar, true⟩] : List SourceColumn).length :=
  pipeline_round_trip (asciiBytes "users") ⟨asciiBytes "id", .Int, false⟩
    [⟨asciiBytes "name", .Varchar, true⟩] (by decide) (by decide)

/-- Witness for C8: the column declaration `x INT NOT NULL ,` parses
with the nullable flag false, the NOT NULL token consumed. -/
theorem nullability_rule_witness :
    ((false : Bool) = true ∧
        ([.Text "x", .Int, .NotNull, .Comma] : List LexicalToken) =
          [.Text "x", ctLexTok .Int, .Comma]) ∨
      ((false : Bool) = false ∧
        ([.Text "x", .Int, .NotNull, .Comma] : List LexicalToken) =
          [.Text "x", ctLexTok .Int, .NotNull, .Comma]) :=
  nullability_rule [.Text "x", .Int, .NotNull, .Comma] [] "x" .Int false rfl

end CodegenSql
